import Mathlib

set_option maxHeartbeats 1000000
set_option maxRecDepth 4000
set_option linter.unnecessarySeqFocus false

/-- Characters of a JavaScript string, modelled as a list of characters. -/
abbrev Str := List Char

/-- Whitespace test used to model the JavaScript trim family (ASCII whitespace). -/
def isWsChar (c : Char) : Bool :=
  c == ' ' || c == '\t' || c == '\n' || c == '\r'

/-- Model of the trim method: drop whitespace from both ends of a string. -/
def jsTrim (l : Str) : Str :=
  ((l.dropWhile isWsChar).reverse.dropWhile isWsChar).reverse

/-- Drop a run of leading newline characters. -/
def dropNl : Str → Str
  | [] => []
  | c :: rest => if c = '\n' then dropNl rest else c :: rest

/-- Prepend a character to the first piece of a split result. -/
def consHead (c : Char) : List Str → List Str
  | [] => [[c]]
  | p :: ps => (c :: p) :: ps

/-- Fuel-indexed worker splitting a string at each maximal run of two or more
newline characters, modelling the greedy regex split used by updateNoteBody. -/
def splitGo : Nat → Str → List Str
  | _, [] => [[]]
  | 0, l => [l]
  | fuel + 1, c :: rest =>
    if c = '\n' ∧ rest.head? = some '\n' then [] :: splitGo fuel (dropNl rest)
    else consHead c (splitGo fuel rest)

/-- Split a body text at every run of blank lines (two or more newlines). -/
def splitBlankRuns (l : Str) : List Str := splitGo l.length l

/-- Blocks derived from a body text in updateNoteBody: split on blank-line runs,
drop the whitespace-only pieces, then trim each remaining piece. -/
def deriveBlocks (body : Str) : List Str :=
  ((splitBlankRuns body).filter (fun s => !(jsTrim s).isEmpty)).map jsTrim

/-- Body text shown for a note: paragraph texts joined by a double line break,
modelling the join used by the body textarea value. -/
def joinTexts : List Str → Str
  | [] => []
  | [t] => t
  | t :: rest => t ++ '\n' :: '\n' :: joinTexts rest

/-- Whether a text contains a run of two or more newline characters. -/
def hasBlankRun : Str → Bool
  | [] => false
  | c :: rest => if c = '\n' ∧ rest.head? = some '\n' then true else hasBlankRun rest

/-- Model of the two-argument slice method with nonnegative indices. -/
def jsSlice (s : Str) (a b : Nat) : Str := (s.take b).drop a

/-- Model of the one-argument slice method with a nonnegative index. -/
def jsSliceFrom (s : Str) (a : Nat) : Str := s.drop a

/-- Split a string at every dot character, modelling the split used by
compareVersions in updateService. -/
def splitDot : Str → List Str
  | [] => [[]]
  | c :: rest => if c = '.' then [] :: splitDot rest else consHead c (splitDot rest)

/-- Numeric value of a version component, modelling Number on digit strings. -/
def parseNum (p : Str) : Nat :=
  p.foldl (fun a c => a * 10 + (c.toNat - '0'.toNat)) 0

/-- Comparison of the remaining components of the second version once the first
has run out: its components are compared against zero. -/
def cmpZeros : List Nat → Int
  | [] => 0
  | y :: ys => if 0 < y then -1 else cmpZeros ys

/-- Component-wise comparison loop of compareVersions: components are compared
left to right and a missing trailing component counts as zero. -/
def cmpNatList : List Nat → List Nat → Int
  | [], ys => cmpZeros ys
  | x :: xs, [] => if 0 < x then 1 else cmpNatList xs []
  | x :: xs, y :: ys => if y < x then 1 else if x < y then -1 else cmpNatList xs ys

/-- Model of compareVersions from updateService: split both strings on dots and
compare the integer components left to right. -/
def compareVersions (a b : Str) : Int :=
  cmpNatList ((splitDot a).map parseNum) ((splitDot b).map parseNum)

/-- A dotted version string: nonempty all-digit components separated by dots. -/
def isVersionString (l : Str) : Bool :=
  (splitDot l).all (fun p => !p.isEmpty && p.all Char.isDigit)

/-- A transcript paragraph as stored on a note. -/
structure Paragraph where
  id : Str
  text : Str
  timestamp : Nat
deriving DecidableEq

/-- A note of the in-memory collection. -/
structure Note where
  id : Str
  title : Str
  paragraphs : List Paragraph
  createdAt : Nat
  updatedAt : Nat
  folder_id : Option Str
deriving DecidableEq

/-- The single-slot undo snapshot: note id plus copied title and paragraphs. -/
structure UndoSnap where
  noteId : Str
  title : Str
  paragraphs : List Paragraph
deriving DecidableEq

/-- A captured selection range over the body text. -/
structure SelRange where
  start : Nat
  stop : Nat
deriving DecidableEq

/-- The recording status of the recorder. -/
inductive RecStatus where
  | idle
  | recording
  | paused
  | transcribing
deriving DecidableEq

/-- A fire-and-forget remote persistence command. -/
inductive RemoteCmd where
  | upsertNote (userId : Str) (note : Note)
  | deleteNote (noteId : Str) (userId : Str)
deriving DecidableEq

/-- The application state relevant to the note store, the selection replacement
engine and the undo buffer. UI-only concerns (refs to DOM nodes, search text,
folder list, loading flags) are omitted since no modelled transition reads them. -/
structure AppState where
  notes : List Note
  currentNoteId : Option Str
  userId : Option Str
  status : RecStatus
  canUndo : Bool
  undoSnapshot : Option UndoSnap
  selectionRangeRef : Option SelRange
  bodyTextAtRecord : Str
  replacingSelection : Bool
  replacingSelectionRange : Option SelRange
  replacingSelectionBody : Str
  selectedNoteIds : List Str
deriving DecidableEq

/-- Commands emitted by persistNoteToCloud: an upsert scoped to the resolved
user id, or nothing when no user id is available. -/
def persistNoteToCloud (s : AppState) (n : Note) : List RemoteCmd :=
  match s.userId with
  | none => []
  | some uid => [RemoteCmd.upsertNote uid n]

/-- Commands emitted by deleteNoteFromCloud: a delete scoped by both the note id
and the owning user id, or nothing when no user id is available. -/
def deleteNoteFromCloud (s : AppState) (id : Str) : List RemoteCmd :=
  match s.userId with
  | none => []
  | some uid => [RemoteCmd.deleteNote id uid]

/-- Model of saveUndoSnapshot: copy the current note's title and paragraphs into
the single undo slot; a no-op when no note matches the current id. -/
def saveUndoSnapshot (s : AppState) : AppState :=
  match s.notes.find? (fun n => decide (s.currentNoteId = some n.id)) with
  | none => s
  | some note =>
    { s with
        undoSnapshot := some { noteId := note.id, title := note.title, paragraphs := note.paragraphs },
        canUndo := true }

/-- Model of handleUndo: write the snapshot back over the note carrying the same
id, bumping updatedAt and scheduling a persist, then clear the slot; a no-op
when the slot is empty. -/
def handleUndo (s : AppState) (now : Nat) : AppState × List RemoteCmd :=
  match s.undoSnapshot with
  | none => (s, [])
  | some snap =>
    let restore : Note → Note := fun n =>
      { n with title := snap.title, paragraphs := snap.paragraphs, updatedAt := now }
    let notes := s.notes.map (fun n => if n.id = snap.noteId then restore n else n)
    let cmds := List.flatten ((s.notes.filter (fun n => decide (n.id = snap.noteId))).map
      (fun n => persistNoteToCloud s (restore n)))
    ({ s with notes := notes, undoSnapshot := none, canUndo := false }, cmds)

/-- Model of updateTitle: snapshot for undo, then retitle the current note with a
bumped updatedAt and schedule a persist. -/
def updateTitle (s : AppState) (newTitle : Str) (now : Nat) : AppState × List RemoteCmd :=
  let s0 := saveUndoSnapshot s
  let upd : Note → Note := fun n => { n with title := newTitle, updatedAt := now }
  let notes := s0.notes.map (fun n => if s0.currentNoteId = some n.id then upd n else n)
  let cmds := List.flatten ((s0.notes.filter (fun n => decide (s0.currentNoteId = some n.id))).map
    (fun n => persistNoteToCloud s0 (upd n)))
  ({ s0 with notes := notes }, cmds)

/-- Index-aligned merge of updateNoteBody: block i reuses paragraph i's identity
and timestamp when paragraph i exists, otherwise mints a fresh id with the
current time. The fresh-id supply replaces the id generator, indexed by block. -/
def mergeFrom (existing : List Paragraph) (fresh : Nat → Str) (now : Nat) :
    Nat → List Str → List Paragraph
  | _, [] => []
  | i, text :: rest =>
    (match existing[i]? with
     | some p => { p with text := text }
     | none => { id := fresh i, text := text, timestamp := now }) ::
      mergeFrom existing fresh now (i + 1) rest

/-- Paragraph list rebuilt by updateNoteBody: an empty block list yields an
empty paragraph list, otherwise the index-aligned merge over the blocks. -/
def newParagraphs (existing : List Paragraph) (blocks : List Str) (fresh : Nat → Str)
    (now : Nat) : List Paragraph :=
  if blocks.isEmpty then [] else mergeFrom existing fresh now 0 blocks

/-- Model of updateNoteBody: snapshot for undo, re-split the body text into
blocks, and rebuild the current note's paragraphs with a bumped updatedAt. -/
def updateNoteBody (s : AppState) (bodyText : Str) (fresh : Nat → Str) (now : Nat) :
    AppState × List RemoteCmd :=
  let s0 := saveUndoSnapshot s
  let blocks := deriveBlocks bodyText
  let upd : Note → Note := fun n =>
    { n with paragraphs := newParagraphs n.paragraphs blocks fresh now, updatedAt := now }
  let notes := s0.notes.map (fun n => if s0.currentNoteId = some n.id then upd n else n)
  let cmds := List.flatten ((s0.notes.filter (fun n => decide (s0.currentNoteId = some n.id))).map
    (fun n => persistNoteToCloud s0 (upd n)))
  ({ s0 with notes := notes }, cmds)

/-- Model of handleDeleteNote after the user confirms: remove the note locally
first, reassign the current note to the first remaining note when the deleted
one was current, drop the id from the multi-select set, and schedule a remote
delete scoped by both the note id and the owning user id. -/
def handleDeleteNote (s : AppState) (id : Str) : AppState × List RemoteCmd :=
  let filtered := s.notes.filter (fun n => decide (n.id ≠ id))
  let current := if s.currentNoteId = some id then Option.map Note.id filtered.head?
    else s.currentNoteId
  let selected := s.selectedNoteIds.filter (fun x => decide (x ≠ id))
  ({ s with notes := filtered, currentNoteId := current, selectedNoteIds := selected },
    deleteNoteFromCloud s id)

/-- Model of the effect watching the recording status: whenever it is idle the
selection replacement overlay state is reset. -/
def statusIdleEffect (s : AppState) : AppState :=
  if s.status = RecStatus.idle then
    { s with replacingSelection := false, replacingSelectionRange := none,
             replacingSelectionBody := [] }
  else s

/-- Model of the effect watching currentNoteId: on a note switch the undo flag,
the undo slot and the captured selection range are cleared. -/
def noteChangeEffect (s : AppState) : AppState :=
  { s with canUndo := false, undoSnapshot := none, selectionRangeRef := none }

/-- The body text spliced on transcription completion: text before the captured
start, the transcribed text, then text after the captured end. -/
def spliceBody (body : Str) (sel : SelRange) (text : Str) : Str :=
  jsSlice body 0 sel.start ++ text ++ jsSliceFrom body sel.stop

/-- Model of handleTranscriptionComplete: clear the replacement overlay state and
the captured range; with no current note mint a new note titled by the first 30
characters; with a captured range splice the text into the captured body and run
it through updateNoteBody; otherwise append a fresh paragraph. -/
def handleTranscriptionComplete (s : AppState) (text : Str) (fresh : Nat → Str) (now : Nat) :
    AppState × List RemoteCmd :=
  let s1 := { s with replacingSelection := false, replacingSelectionRange := none,
                     replacingSelectionBody := [], selectionRangeRef := none }
  match s.currentNoteId with
  | none =>
    let newId := fresh 0
    let p : Paragraph := { id := fresh 1, text := text, timestamp := now }
    let title := jsSlice text 0 30 ++ (if 30 < text.length then ("...".toList) else [])
    let n : Note := { id := newId, title := title, paragraphs := [p], createdAt := now,
                      updatedAt := now, folder_id := none }
    ({ s1 with notes := n :: s1.notes, currentNoteId := some newId, status := RecStatus.idle },
      persistNoteToCloud s1 n)
  | some _ =>
    match s.selectionRangeRef with
    | some sel =>
      let stepped := updateNoteBody s1 (spliceBody s.bodyTextAtRecord sel text) fresh now
      ({ stepped.1 with bodyTextAtRecord := [], status := RecStatus.idle }, stepped.2)
    | none =>
      let upd : Note → Note := fun n =>
        { n with paragraphs := n.paragraphs ++ [{ id := fresh 0, text := text, timestamp := now }],
                 updatedAt := now }
      let notes := s1.notes.map (fun n => if s1.currentNoteId = some n.id then upd n else n)
      let cmds := List.flatten ((s1.notes.filter (fun n => decide (s1.currentNoteId = some n.id))).map
        (fun n => persistNoteToCloud s1 (upd n)))
      ({ s1 with notes := notes, status := RecStatus.idle }, cmds)

/-- A row of the users table. -/
structure UserRow where
  id : Str
deriving DecidableEq

/-- Behaviour of one remote call: it settles with data and error after some
time, rejects after some time, or never settles. -/
inductive CallOutcome where
  | settles (data : Option UserRow) (error : Option Str) (t : Nat)
  | rejects (t : Nat)
  | hangs
deriving DecidableEq

/-- Result of racing a call against a timeout: the first component is the
settled data and error, or none when the race threw (a rejection or the
timeout); the second component is the elapsed time. -/
def raceTimeout (c : CallOutcome) (limit : Nat) : Option (Option UserRow × Option Str) × Nat :=
  match c with
  | CallOutcome.settles d e t => if t < limit then (some (d, e), t) else (none, limit)
  | CallOutcome.rejects t => if t < limit then (none, t) else (none, limit)
  | CallOutcome.hangs => (none, limit)

/-- Whether the first string starts with the second as written. -/
def startsWithStr : Str → Str → Bool
  | _, [] => true
  | [], _ :: _ => false
  | c :: s, d :: p => if c = d then startsWithStr s p else false

/-- Whether the second string occurs inside the first, modelling includes. -/
def containsStr : Str → Str → Bool
  | [], p => p.isEmpty
  | c :: s, p => startsWithStr (c :: s) p || containsStr s p

/-- The condition under which resolveUserId attempts to create the mapping row:
there is an error whose message mentions neither timeout nor missing rows. -/
def errTriggersCreate (msg : Str) : Bool :=
  !containsStr msg ("timeout".toList) && !containsStr msg ("No rows".toList)

/-- JavaScript truthiness of the id carried by an optional users-table row. -/
def lookupId (d : Option UserRow) : Option Str :=
  match d with
  | some row => if row.id ≠ [] then some row.id else none
  | none => none

/-- Outcome of the create attempt inside resolveUserId: a created row with a
truthy id and no error wins, anything else falls back to the authenticated
identity; the elapsed time of the create race is added onto the lookup time. -/
def resolveCreate (create : CallOutcome) (auth : Str) (t0 : Nat) : Str × Nat :=
  match raceTimeout create 3000 with
  | (some (d, e), t) =>
    match lookupId d, e with
    | some uid, none => (uid, t0 + t)
    | _, _ => (auth, t0 + t)
  | (none, t) => (auth, t0 + t)

/-- Model of resolveUserId: race the users-table lookup against a 3000 ms
timeout; a truthy row id wins; a non-timeout, non-missing-row error triggers a
create attempt raced against a second 3000 ms timeout; every other path,
including timeouts and rejections, falls back to the authenticated identity. -/
def resolveUserId (lookup create : CallOutcome) (auth : Str) : Str × Nat :=
  match raceTimeout lookup 3000 with
  | (some (d, e), t) =>
    match lookupId d with
    | some uid => (uid, t)
    | none =>
      match e with
      | some msg => if errTriggersCreate msg then resolveCreate create auth t else (auth, t)
      | none => (auth, t)
  | (none, t) => (auth, t)

/-- A note record as parsed from an import file, whose id may be absent. -/
structure RawNote where
  id : Option Str
  title : Str
  paragraphs : List Paragraph
deriving DecidableEq

/-- JavaScript-truthiness default for an imported id: a missing or empty id is
replaced by the freshly minted one. -/
def idOrFresh (id : Option Str) (freshId : Str) : Str :=
  match id with
  | some x => if x ≠ [] then x else freshId
  | none => freshId

/-- First-occurrence deduplication worker over ids already seen. -/
def dedupGo (seen : List (Option Str)) : List RawNote → List RawNote
  | [] => []
  | n :: rest =>
    if n.id ∈ seen then dedupGo seen rest else n :: dedupGo (n.id :: seen) rest

/-- Deduplication by id keeping the first occurrence, modelling the findIndex
filter used when merging imported and existing notes. -/
def dedupById (l : List RawNote) : List RawNote := dedupGo [] l

/-- A remote upsert of an imported note, scoped to the resolved user id. -/
inductive ImportCmd where
  | upsertRaw (userId : Str) (noteId : Str) (title : Str) (paragraphs : List Paragraph)
deriving DecidableEq

/-- Remote upserts issued for each imported record: the persisted copy carries
the record's id or, when that is missing, a freshly minted one. -/
def importCmdsFrom (fresh : Nat → Str) (uid : Str) : Nat → List RawNote → List ImportCmd
  | _, [] => []
  | i, n :: rest =>
    ImportCmd.upsertRaw uid (idOrFresh n.id (fresh i)) n.title n.paragraphs ::
      importCmdsFrom fresh uid (i + 1) rest

/-- Model of handleImportNotes on a successfully parsed array: each record is
persisted remotely under its id or a freshly minted one, while the local
collection becomes the imported records as parsed followed by the previous
ones, deduplicated by id with the first occurrence winning. -/
def handleImportNotes (imported prev : List RawNote) (fresh : Nat → Str) (uid : Str) :
    List ImportCmd × List RawNote :=
  (importCmdsFrom fresh uid 0 imported, dedupById (imported ++ prev))

/-- Precondition of the paragraph round-trip law: every text is nonempty,
already trimmed, and contains no blank-line run. -/
def goodTexts (texts : List Str) : Prop :=
  ∀ t ∈ texts, t ≠ [] ∧ jsTrim t = t ∧ hasBlankRun t = false

instance (texts : List Str) : Decidable (goodTexts texts) := by
  unfold goodTexts
  infer_instance

/-- An application state with no notes and everything cleared. -/
def emptyAppState : AppState :=
  { notes := [], currentNoteId := none, userId := none, status := RecStatus.idle,
    canUndo := false, undoSnapshot := none, selectionRangeRef := none,
    bodyTextAtRecord := [], replacingSelection := false, replacingSelectionRange := none,
    replacingSelectionBody := [], selectedNoteIds := [] }

/-- A note holding the single paragraph hello world. -/
def noteHello : Note :=
  { id := "n1".toList, title := "t".toList,
    paragraphs := [{ id := "p1".toList, text := "hello world".toList, timestamp := 0 }],
    createdAt := 0, updatedAt := 0, folder_id := none }

/-- A state about to complete a transcription over a captured range of hello world. -/
def spliceExampleState : AppState :=
  { emptyAppState with
    notes := [noteHello], currentNoteId := some ("n1".toList),
    userId := some ("u1".toList), status := RecStatus.transcribing,
    selectionRangeRef := some { start := 3, stop := 7 },
    bodyTextAtRecord := "hello world".toList }

/-- A state in which a selection range and a body snapshot were captured. -/
def capturedState : AppState :=
  { emptyAppState with
    notes := [noteHello], currentNoteId := some ("n1".toList),
    status := RecStatus.idle, selectionRangeRef := some { start := 1, stop := 3 },
    bodyTextAtRecord := "x".toList, replacingSelection := true,
    replacingSelectionRange := some { start := 1, stop := 3 },
    replacingSelectionBody := "x".toList }

/-- A note with the given id and update time and no content. -/
def plainNote (id : Str) (updated : Nat) : Note :=
  { id := id, title := [], paragraphs := [], createdAt := 0, updatedAt := updated,
    folder_id := none }

/-- A state holding three notes whose list order disagrees with their update
times: the current note a was updated at 10, b at 5 and c at 20. -/
def threeNoteState : AppState :=
  { emptyAppState with
    notes := [plainNote ("a".toList) 10, plainNote ("b".toList) 5, plainNote ("c".toList) 20],
    currentNoteId := some ("a".toList), userId := some ("u1".toList) }

/-- A state whose undo slot holds a snapshot for a note id that no longer
exists in the collection. -/
def staleUndoState : AppState :=
  { emptyAppState with
    notes := [noteHello], currentNoteId := some ("n1".toList),
    undoSnapshot := some { noteId := "zz".toList, title := [], paragraphs := [] },
    canUndo := true }

theorem cmpZeros_eq_neg (ys : List Nat) : cmpZeros ys = -(cmpNatList ys []) := by
  induction ys with
  | nil => rfl
  | cons y ys ih =>
    by_cases hy : 0 < y
    · simp [cmpZeros, cmpNatList, hy]
    · simp [cmpZeros, cmpNatList, hy, ih]

theorem cmpNatList_antisymm (xs ys : List Nat) :
    cmpNatList xs ys = -(cmpNatList ys xs) := by
  induction xs generalizing ys with
  | nil =>
    simpa [cmpNatList] using cmpZeros_eq_neg ys
  | cons x xs ih =>
    cases ys with
    | nil =>
      by_cases hx : 0 < x
      · simp [cmpNatList, cmpZeros, hx]
      · simp [cmpNatList, cmpZeros, hx]
        simpa [cmpNatList] using ih []
    | cons y ys =>
      rcases Nat.lt_trichotomy x y with h | h | h
      · simp [cmpNatList, h, Nat.lt_asymm h]
      · subst h
        simp [cmpNatList, Nat.lt_irrefl, ih ys]
      · simp [cmpNatList, h, Nat.lt_asymm h]

/-- C3. Version comparison laws: antisymmetry on dotted version strings, and the
three concrete comparisons from the spec. -/
theorem compareVersions_spec :
    (∀ a b : Str, isVersionString a = true → isVersionString b = true →
      compareVersions a b = -(compareVersions b a)) ∧
    0 < compareVersions ("1.0.1".toList) ("1.0.0".toList) ∧
    compareVersions ("1.0".toList) ("1.0.0".toList) = 0 ∧
    0 < compareVersions ("2".toList) ("1.9.9".toList) := by
  refine ⟨fun a b _ _ => cmpNatList_antisymm _ _, by decide, by decide, by decide⟩

/-- C3 witness: antisymmetry evaluated at two concrete dotted version strings. -/
theorem compareVersions_spec_witness :
    isVersionString ("0.3".toList) = true ∧ isVersionString ("4".toList) = true ∧
    compareVersions ("0.3".toList) ("4".toList) =
      -(compareVersions ("4".toList) ("0.3".toList)) :=
  ⟨by decide, by decide,
    compareVersions_spec.1 ("0.3".toList) ("4".toList) (by decide) (by decide)⟩

/-- C2. Selection splice arithmetic: the spliced body equals the text before the
captured start, the transcribed text, then the text after the captured end; on
body hello world with range three to seven and text THERE the result is
helTHEREorld, and running the completion handler on such a captured state leaves
the current note with exactly that body. -/
theorem spliceBody_spec :
    (∀ body : Str, ∀ sel : SelRange, ∀ text : Str,
      spliceBody body sel text = body.take sel.start ++ text ++ body.drop sel.stop) ∧
    spliceBody ("hello world".toList) { start := 3, stop := 7 } ("THERE".toList) =
      ("helTHEREorld".toList) ∧
    ((handleTranscriptionComplete spliceExampleState ("THERE".toList)
        (fun _ => ("f".toList)) 99).1.notes.map
      (fun n => joinTexts (n.paragraphs.map Paragraph.text))) = [("helTHEREorld".toList)] := by
  refine ⟨fun body sel text => ?_, by decide, by decide⟩
  simp [spliceBody, jsSlice, jsSliceFrom]

theorem hasBlankRun_cons_false {c : Char} {rest : Str}
    (h : hasBlankRun (c :: rest) = false) :
    ¬(c = '\n' ∧ rest.head? = some '\n') ∧ hasBlankRun rest = false := by
  by_cases hc : c = '\n' ∧ rest.head? = some '\n'
  · simp only [hasBlankRun, if_pos hc] at h
    exact absurd h (by decide)
  · simp only [hasBlankRun, if_neg hc] at h
    exact ⟨hc, h⟩

theorem dropNl_le (l : Str) : (dropNl l).length ≤ l.length := by
  induction l with
  | nil => simp [dropNl]
  | cons c rest ih =>
    simp only [dropNl]
    by_cases hc : c = '\n'
    · rw [if_pos hc]
      exact le_trans ih (by simp)
    · rw [if_neg hc]

theorem dropNl_cons_nl (rest : Str) : dropNl ('\n' :: rest) = dropNl rest := by
  simp [dropNl]

theorem dropNl_of_head {l : Str} (h : l.head? ≠ some '\n') : dropNl l = l := by
  cases l with
  | nil => rfl
  | cons c rest =>
    have hc : c ≠ '\n' := fun hcc => h (by simp [hcc])
    simp [dropNl, hc]

theorem splitGo_nil (fuel : Nat) : splitGo fuel [] = [[]] := by
  cases fuel <;> rfl

theorem splitGo_succ (fuel : Nat) (c : Char) (rest : Str) :
    splitGo (fuel + 1) (c :: rest) =
      if c = '\n' ∧ rest.head? = some '\n' then [] :: splitGo fuel (dropNl rest)
      else consHead c (splitGo fuel rest) := rfl

theorem splitGo_fuel_eq : ∀ fuel₁ fuel₂ : Nat, ∀ l : Str,
    l.length ≤ fuel₁ → l.length ≤ fuel₂ → splitGo fuel₁ l = splitGo fuel₂ l := by
  intro fuel₁
  induction fuel₁ with
  | zero =>
    intro fuel₂ l h₁ _
    have hl : l = [] := List.length_eq_zero.mp (Nat.le_zero.mp h₁)
    subst hl
    simp [splitGo_nil]
  | succ f ih =>
    intro fuel₂ l h₁ h₂
    cases l with
    | nil => simp [splitGo_nil]
    | cons c rest =>
      cases fuel₂ with
      | zero => simp at h₂
      | succ f₂ =>
        rw [splitGo_succ, splitGo_succ]
        have hr : rest.length ≤ f := by simp at h₁; omega
        have hr₂ : rest.length ≤ f₂ := by simp at h₂; omega
        by_cases hc : c = '\n' ∧ rest.head? = some '\n'
        · rw [if_pos hc, if_pos hc]
          have hd := dropNl_le rest
          rw [ih f₂ (dropNl rest) (by omega) (by omega)]
        · rw [if_neg hc, if_neg hc, ih f₂ rest hr hr₂]

theorem splitGo_no_run : ∀ fuel : Nat, ∀ t : Str,
    t.length ≤ fuel → hasBlankRun t = false → splitGo fuel t = [t] := by
  intro fuel
  induction fuel with
  | zero =>
    intro t h₁ _
    have hl : t = [] := List.length_eq_zero.mp (Nat.le_zero.mp h₁)
    subst hl
    rfl
  | succ f ih =>
    intro t h₁ hrun
    cases t with
    | nil => exact splitGo_nil _
    | cons c rest =>
      obtain ⟨hc, hrest⟩ := hasBlankRun_cons_false hrun
      rw [splitGo_succ, if_neg hc, ih rest (by simp at h₁; omega) hrest]
      rfl

theorem splitGo_append_run : ∀ t u : Str, ∀ fuel : Nat,
    t.length + 2 + u.length ≤ fuel → hasBlankRun t = false → t.getLast? ≠ some '\n' →
    splitGo fuel (t ++ '\n' :: '\n' :: u) = t :: splitBlankRuns (dropNl u) := by
  intro t
  induction t with
  | nil =>
    intro u fuel hf _ _
    cases fuel with
    | zero => omega
    | succ f =>
      rw [List.nil_append, splitGo_succ, if_pos ⟨rfl, rfl⟩, dropNl_cons_nl]
      have hd := dropNl_le u
      rw [splitGo_fuel_eq f (dropNl u).length (dropNl u) (by omega) (le_refl _)]
      rfl
  | cons c t' ih =>
    intro u fuel hf hrun hlast
    obtain ⟨hc, hrun'⟩ := hasBlankRun_cons_false hrun
    cases fuel with
    | zero => simp at hf
    | succ f =>
      rw [List.cons_append, splitGo_succ]
      have hcond : ¬(c = '\n' ∧ (t' ++ '\n' :: '\n' :: u).head? = some '\n') := by
        cases t' with
        | nil =>
          intro hx
          apply hlast
          simp [hx.1]
        | cons d t'' =>
          intro hx
          apply hc
          refine ⟨hx.1, ?_⟩
          have hd : d = '\n' := by simpa using hx.2
          simp [hd]
      rw [if_neg hcond]
      have hlast' : t'.getLast? ≠ some '\n' := by
        cases t' with
        | nil => simp
        | cons d t'' =>
          rw [List.getLast?_cons_cons] at hlast
          exact hlast
      rw [ih u f (by simp at hf ⊢; omega) hrun' hlast']
      rfl

theorem dropWhile_len_le (p : Char → Bool) (l : Str) :
    (l.dropWhile p).length ≤ l.length := by
  induction l with
  | nil => simp
  | cons c rest ih =>
    rw [List.dropWhile_cons]
    by_cases hc : p c
    · rw [if_pos hc]
      exact le_trans ih (by simp)
    · rw [if_neg hc]

theorem jsTrim_eq_self_dropWhile {t : Str} (h : jsTrim t = t) :
    t.dropWhile isWsChar = t := by
  have h1 : (jsTrim t).length ≤ (t.dropWhile isWsChar).length := by
    have := dropWhile_len_le isWsChar (t.dropWhile isWsChar).reverse
    simp only [jsTrim, List.length_reverse]
    simpa using this
  have h2 := dropWhile_len_le isWsChar t
  have h3 := congrArg List.length h
  induction t with
  | nil => rfl
  | cons c rest ih =>
    rw [List.dropWhile_cons]
    by_cases hc : isWsChar c
    · exfalso
      rw [List.dropWhile_cons, if_pos hc] at h1 h2
      have := dropWhile_len_le isWsChar rest
      simp at h3
      omega
    · rw [if_neg hc]

theorem trimmed_head {t : Str} (h : jsTrim t = t) : t.head? ≠ some '\n' := by
  intro hh
  cases t with
  | nil => simp at hh
  | cons c rest =>
    have hc : c = '\n' := by simpa using hh
    have hd := jsTrim_eq_self_dropWhile h
    rw [List.dropWhile_cons, if_pos (by rw [hc]; decide)] at hd
    have hle := dropWhile_len_le isWsChar rest
    have := congrArg List.length hd
    simp at this
    omega

theorem trimmed_last {t : Str} (h : jsTrim t = t) : t.getLast? ≠ some '\n' := by
  have hd := jsTrim_eq_self_dropWhile h
  have h2 : t.reverse.dropWhile isWsChar = t.reverse := by
    have hr : ((t.reverse.dropWhile isWsChar)).reverse = t := by
      calc ((t.reverse.dropWhile isWsChar)).reverse
          = jsTrim t := by rw [jsTrim, hd]
        _ = t := h
    have := congrArg List.reverse hr
    simpa using this
  intro hl
  have hh : t.reverse.head? = some '\n' := by
    rw [List.head?_reverse]
    exact hl
  cases hrev : t.reverse with
  | nil => rw [hrev] at hh; simp at hh
  | cons c rest =>
    rw [hrev] at hh h2
    have hc : c = '\n' := by simpa using hh
    rw [List.dropWhile_cons, if_pos (by rw [hc]; decide)] at h2
    have hle := dropWhile_len_le isWsChar rest
    have := congrArg List.length h2
    simp at this
    omega

/-- C1 (amended). Paragraph round-trip: for texts that are nonempty, trimmed and
free of blank-line runs, joining with a double line break and re-deriving the
blocks by the body-update path returns the original sequence of texts. -/
theorem paragraphs_roundtrip (texts : List Str) (h : goodTexts texts) :
    deriveBlocks (joinTexts texts) = texts := by
  induction texts with
  | nil => rfl
  | cons t rest ih =>
    obtain ⟨hne, htrim, hrun⟩ := h t (by simp)
    have hkeep : (!(jsTrim t).isEmpty) = true := by
      rw [htrim]
      simpa using hne
    cases rest with
    | nil =>
      show deriveBlocks (joinTexts [t]) = [t]
      have hj : joinTexts [t] = t := rfl
      rw [hj]
      unfold deriveBlocks
      rw [show splitBlankRuns t = [t] from splitGo_no_run t.length t (le_refl _) hrun]
      have hkeep2 : (!t.isEmpty) = true := by simpa using hne
      rw [List.filter_cons]
      simp [htrim, hkeep2]
    | cons t₂ rest₂ =>
      obtain ⟨hne₂, htrim₂, _⟩ := h t₂ (by simp)
      have hj : joinTexts (t :: t₂ :: rest₂) = t ++ '\n' :: '\n' :: joinTexts (t₂ :: rest₂) := rfl
      rw [hj]
      have hu : (joinTexts (t₂ :: rest₂)).head? ≠ some '\n' := by
        cases rest₂ with
        | nil => exact trimmed_head htrim₂
        | cons t₃ rest₃ =>
          show (t₂ ++ '\n' :: '\n' :: joinTexts (t₃ :: rest₃)).head? ≠ some '\n'
          cases t₂ with
          | nil => exact absurd rfl hne₂
          | cons d t₂' =>
            have hd : d ≠ '\n' := by
              have hth := trimmed_head htrim₂
              intro hdd
              exact hth (by simp [hdd])
            simp [hd]
      have hsplit : splitBlankRuns (t ++ '\n' :: '\n' :: joinTexts (t₂ :: rest₂)) =
          t :: splitBlankRuns (joinTexts (t₂ :: rest₂)) := by
        have hrw := splitGo_append_run t (joinTexts (t₂ :: rest₂))
          ((t ++ '\n' :: '\n' :: joinTexts (t₂ :: rest₂)).length)
          (by simp; omega) hrun (trimmed_last htrim)
        rw [splitBlankRuns, hrw, dropNl_of_head hu]
      have ihr := ih (fun x hx => h x (List.mem_cons_of_mem _ hx))
      unfold deriveBlocks at ihr ⊢
      rw [hsplit, List.filter_cons]
      have hkeep2 : (!t.isEmpty) = true := by simpa using hne
      simp [htrim, hkeep2, ihr]

/-- C1 counterexample: the text consisting of a space then the letter a contains
no blank-line run, yet re-deriving blocks from the joined body trims it, so the
round trip fails as the claim states it. -/
theorem paragraphs_roundtrip_cex :
    hasBlankRun (" a".toList) = false ∧
    deriveBlocks (joinTexts [(" a".toList)]) ≠ [(" a".toList)] := by
  decide

/-- C1 witness: the round trip evaluated on two concrete paragraph texts. -/
theorem paragraphs_roundtrip_witness :
    goodTexts [("hello".toList), ("wor ld".toList)] ∧
    deriveBlocks (joinTexts [("hello".toList), ("wor ld".toList)]) =
      [("hello".toList), ("wor ld".toList)] :=
  ⟨by decide, paragraphs_roundtrip [("hello".toList), ("wor ld".toList)] (by decide)⟩

theorem raceTimeout_le (c : CallOutcome) (limit : Nat) : (raceTimeout c limit).2 ≤ limit := by
  cases c with
  | settles d e t =>
    by_cases h : t < limit <;> simp [raceTimeout, h] <;> omega
  | rejects t =>
    by_cases h : t < limit <;> simp [raceTimeout, h] <;> omega
  | hangs => simp [raceTimeout]

theorem lookupId_ne (d : Option UserRow) (uid : Str) (h : lookupId d = some uid) :
    uid ≠ [] := by
  cases d with
  | none => simp [lookupId] at h
  | some row =>
    simp only [lookupId] at h
    by_cases hr : row.id ≠ []
    · rw [if_pos hr] at h
      have : row.id = uid := by simpa using h
      rw [this] at hr
      exact hr
    · rw [if_neg hr] at h
      exact absurd h (by simp)

theorem resolveCreate_le (create : CallOutcome) (auth : Str) (t0 : Nat) :
    (resolveCreate create auth t0).2 ≤ t0 + 3000 := by
  cases create with
  | hangs => simp [resolveCreate, raceTimeout]
  | rejects t =>
    by_cases h : t < 3000 <;> simp [resolveCreate, raceTimeout, h] <;> omega
  | settles d e t =>
    by_cases h : t < 3000
    · cases hl : lookupId d with
      | some uid =>
        cases e <;> simp [resolveCreate, raceTimeout, h, hl] <;> omega
      | none =>
        cases e <;> simp [resolveCreate, raceTimeout, h, hl] <;> omega
    · simp [resolveCreate, raceTimeout, h]

theorem resolveCreate_ne (create : CallOutcome) (auth : Str) (t0 : Nat) (ha : auth ≠ []) :
    (resolveCreate create auth t0).1 ≠ [] := by
  cases create with
  | hangs => simpa [resolveCreate, raceTimeout] using ha
  | rejects t =>
    by_cases h : t < 3000 <;> simp [resolveCreate, raceTimeout, h] <;> exact ha
  | settles d e t =>
    by_cases h : t < 3000
    · cases hl : lookupId d with
      | some uid =>
        cases e with
        | none =>
          simp [resolveCreate, raceTimeout, h, hl]
          exact lookupId_ne d uid hl
        | some msg =>
          simp [resolveCreate, raceTimeout, h, hl]
          exact ha
      | none =>
        cases e <;> simp [resolveCreate, raceTimeout, h, hl] <;> exact ha
    · simpa [resolveCreate, raceTimeout, h] using ha

theorem resolveUserId_le (lookup create : CallOutcome) (auth : Str) :
    (resolveUserId lookup create auth).2 ≤ 6000 := by
  cases lookup with
  | hangs => simp [resolveUserId, raceTimeout]
  | rejects t =>
    by_cases h : t < 3000 <;> simp [resolveUserId, raceTimeout, h] <;> omega
  | settles d e t =>
    by_cases h : t < 3000
    · cases hl : lookupId d with
      | some uid => simp [resolveUserId, raceTimeout, h, hl]; omega
      | none =>
        cases e with
        | none => simp [resolveUserId, raceTimeout, h, hl]; omega
        | some msg =>
          by_cases hm : errTriggersCreate msg = true
          · simp only [resolveUserId, raceTimeout, if_pos h, hl, if_pos hm]
            have := resolveCreate_le create auth t
            omega
          · simp [resolveUserId, raceTimeout, h, hl, hm]; omega
    · simp [resolveUserId, raceTimeout, h]

theorem resolveUserId_ne (lookup create : CallOutcome) (auth : Str) (ha : auth ≠ []) :
    (resolveUserId lookup create auth).1 ≠ [] := by
  cases lookup with
  | hangs => simpa [resolveUserId, raceTimeout] using ha
  | rejects t =>
    by_cases h : t < 3000 <;> simp [resolveUserId, raceTimeout, h] <;> exact ha
  | settles d e t =>
    by_cases h : t < 3000
    · cases hl : lookupId d with
      | some uid =>
        simp [resolveUserId, raceTimeout, h, hl]
        exact lookupId_ne d uid hl
      | none =>
        cases e with
        | none => simp [resolveUserId, raceTimeout, h, hl]; exact ha
        | some msg =>
          by_cases hm : errTriggersCreate msg = true
          · simp only [resolveUserId, raceTimeout, if_pos h, hl, if_pos hm]
            exact resolveCreate_ne create auth t ha
          · simp [resolveUserId, raceTimeout, h, hl, hm]; exact ha
    · simpa [resolveUserId, raceTimeout, h] using ha

/-- C4. SessionResolver totality: for any behaviour of the two remote calls and a
nonempty authenticated identity, resolution finishes within the two timeout
races (6000 ms) with a nonempty user id; a hanging lookup, a rejected lookup and
a failing create attempt all fall back to the authenticated identity itself. -/
theorem resolveUserId_total (lookup create : CallOutcome) (auth : Str) (ha : auth ≠ []) :
    (resolveUserId lookup create auth).2 ≤ 6000 ∧
    (resolveUserId lookup create auth).1 ≠ [] ∧
    resolveUserId CallOutcome.hangs create auth = (auth, 3000) ∧
    (∀ t, (resolveUserId (CallOutcome.rejects t) create auth).1 = auth) ∧
    (∀ msg t, errTriggersCreate msg = true →
      (resolveUserId (CallOutcome.settles none (some msg) t) CallOutcome.hangs auth).1 = auth) := by
  refine ⟨resolveUserId_le lookup create auth, resolveUserId_ne lookup create auth ha, rfl, ?_, ?_⟩
  · intro t
    by_cases h : t < 3000 <;> simp [resolveUserId, raceTimeout, h]
  · intro msg t hm
    by_cases h : t < 3000
    · simp [resolveUserId, raceTimeout, h, lookupId, hm, resolveCreate]
    · simp [resolveUserId, raceTimeout, h]

/-- C4 witness: a lookup and a create that both hang resolve to the
authenticated identity after the two timeouts. -/
theorem resolveUserId_total_witness :
    ("a".toList : Str) ≠ [] ∧
    resolveUserId CallOutcome.hangs CallOutcome.hangs ("a".toList) = (("a".toList), 3000) :=
  ⟨by decide, (resolveUserId_total CallOutcome.hangs CallOutcome.hangs ("a".toList)
    (by decide)).2.2.1⟩

theorem find?_first (pre post : List Note) (note : Note)
    (hpre : note.id ∉ pre.map Note.id) :
    (pre ++ note :: post).find? (fun n => decide (some note.id = some n.id)) = some note := by
  induction pre with
  | nil => simp [List.find?]
  | cons x xs ih =>
    have hx : note.id ≠ x.id := fun hc => hpre (by simp [hc])
    have hxs : note.id ∉ xs.map Note.id := fun hm => hpre (by simp [hm])
    rw [List.cons_append, List.find?_cons_of_neg _ (by simp [hx]), ih hxs]

theorem map_keep_one (l : List Note) (nid : Str) (f : Note → Note)
    (h : nid ∉ l.map Note.id) :
    l.map (fun n => if some nid = some n.id then f n else n) = l := by
  induction l with
  | nil => rfl
  | cons x xs ih =>
    have hx : nid ≠ x.id := fun hc => h (by simp [hc])
    have hxs : nid ∉ xs.map Note.id := fun hm => h (by simp [hm])
    rw [List.map_cons, if_neg (by simp [hx]), ih hxs]

theorem map_keep_two (l : List Note) (nid : Str) (f : Note → Note)
    (h : nid ∉ l.map Note.id) :
    l.map (fun n => if n.id = nid then f n else n) = l := by
  induction l with
  | nil => rfl
  | cons x xs ih =>
    have hx : x.id ≠ nid := fun hc => h (by simp [hc])
    have hxs : nid ∉ xs.map Note.id := fun hm => h (by simp [hm])
    rw [List.map_cons, if_neg hx, ih hxs]

theorem map_if_split_one (pre post : List Note) (note : Note) (f : Note → Note)
    (hpre : note.id ∉ pre.map Note.id) (hpost : note.id ∉ post.map Note.id) :
    (pre ++ note :: post).map (fun n => if some note.id = some n.id then f n else n) =
      pre ++ f note :: post := by
  rw [List.map_append, List.map_cons, map_keep_one pre note.id f hpre,
      map_keep_one post note.id f hpost, if_pos rfl]

theorem map_if_split_two (pre post : List Note) (note : Note) (f : Note → Note)
    (hpre : note.id ∉ pre.map Note.id) (hpost : note.id ∉ post.map Note.id) :
    (pre ++ note :: post).map (fun n => if n.id = note.id then f n else n) =
      pre ++ f note :: post := by
  rw [List.map_append, List.map_cons, map_keep_two pre note.id f hpre,
      map_keep_two post note.id f hpost, if_pos rfl]

/-- C5. Undo exactness and single use: after a title edit that snapshotted the
current note, one restore puts the note's title and paragraphs back exactly,
bumping only updatedAt, and clears the slot, so a second consecutive restore,
and any restore with an empty slot, changes nothing. -/
theorem undo_restores_exactly
    (pre post : List Note) (note : Note) (s : AppState) (newTitle : Str) (t1 t2 t3 : Nat)
    (hnotes : s.notes = pre ++ note :: post)
    (hcur : s.currentNoteId = some note.id)
    (hids : note.id ∉ (pre ++ post).map Note.id) :
    ((handleUndo (updateTitle s newTitle t1).1 t2).1.notes =
      pre ++ { note with updatedAt := t2 } :: post) ∧
    (handleUndo (updateTitle s newTitle t1).1 t2).1.undoSnapshot = none ∧
    (handleUndo (updateTitle s newTitle t1).1 t2).1.canUndo = false ∧
    handleUndo (handleUndo (updateTitle s newTitle t1).1 t2).1 t3 =
      ((handleUndo (updateTitle s newTitle t1).1 t2).1, []) ∧
    (∀ sx : AppState, ∀ tx : Nat, sx.undoSnapshot = none → handleUndo sx tx = (sx, [])) := by
  have hpre : note.id ∉ pre.map Note.id := fun hm => hids (by simp [hm])
  have hpost : note.id ∉ post.map Note.id := fun hm => hids (by simp [hm])
  have hnoop : ∀ sx : AppState, ∀ tx : Nat, sx.undoSnapshot = none →
      handleUndo sx tx = (sx, []) := by
    intro sx tx hx
    simp [handleUndo, hx]
  have hfind : s.notes.find? (fun n => decide (s.currentNoteId = some n.id)) = some note := by
    rw [hnotes, hcur]
    exact find?_first pre post note hpre
  have hs0 : saveUndoSnapshot s =
      { s with
        undoSnapshot := some { noteId := note.id, title := note.title, paragraphs := note.paragraphs },
        canUndo := true } := by
    simp only [saveUndoSnapshot, hfind]
  have h1notes : (updateTitle s newTitle t1).1.notes =
      pre ++ { note with title := newTitle, updatedAt := t1 } :: post := by
    simp only [updateTitle, hs0]
    rw [hnotes, hcur]
    exact map_if_split_one pre post note _ hpre hpost
  have h1snap : (updateTitle s newTitle t1).1.undoSnapshot =
      some { noteId := note.id, title := note.title, paragraphs := note.paragraphs } := by
    simp only [updateTitle, hs0]
  have h2notes : (handleUndo (updateTitle s newTitle t1).1 t2).1.notes =
      pre ++ { note with updatedAt := t2 } :: post := by
    simp only [handleUndo, h1snap]
    rw [h1notes]
    exact map_if_split_two pre post { note with title := newTitle, updatedAt := t1 } _ hpre hpost
  have h2snap : (handleUndo (updateTitle s newTitle t1).1 t2).1.undoSnapshot = none := by
    simp only [handleUndo, h1snap]
  have h2can : (handleUndo (updateTitle s newTitle t1).1 t2).1.canUndo = false := by
    simp only [handleUndo, h1snap]
  exact ⟨h2notes, h2snap, h2can, hnoop _ _ h2snap, hnoop⟩

/-- C5 witness: the undo round trip evaluated on a one-note state. -/
theorem undo_restores_exactly_witness :
    capturedState.notes = [] ++ noteHello :: [] ∧
    (handleUndo (updateTitle capturedState ("T2".toList) 5).1 7).1.notes =
      [] ++ { noteHello with updatedAt := 7 } :: [] :=
  ⟨rfl, (undo_restores_exactly [] [] noteHello capturedState ("T2".toList) 5 7 11
    rfl rfl (by simp)).1⟩

/-- C10. Undo frame property: a restore touches at most the note whose id equals
the snapshot's note id, every note at a position holding a different id is kept
as is, a snapshot for a vanished note leaves the whole collection unchanged, and
the slot is cleared in every case. -/
theorem handleUndo_frame (s : AppState) (now : Nat) (snap : UndoSnap)
    (hs : s.undoSnapshot = some snap) :
    (handleUndo s now).1.notes.length = s.notes.length ∧
    (∀ i : Nat, ∀ n : Note, s.notes[i]? = some n → n.id ≠ snap.noteId →
      (handleUndo s now).1.notes[i]? = some n) ∧
    (snap.noteId ∉ s.notes.map Note.id → (handleUndo s now).1.notes = s.notes) ∧
    (handleUndo s now).1.undoSnapshot = none ∧
    (handleUndo s now).1.canUndo = false := by
  have hnotes : (handleUndo s now).1.notes =
      s.notes.map (fun n => if n.id = snap.noteId then
        { n with title := snap.title, paragraphs := snap.paragraphs, updatedAt := now }
        else n) := by
    simp only [handleUndo, hs]
  refine ⟨?_, ?_, ?_, by simp only [handleUndo, hs], by simp only [handleUndo, hs]⟩
  · rw [hnotes]
    simp
  · intro i n hi hne
    rw [hnotes, List.getElem?_map, hi]
    simp [hne]
  · intro hnin
    rw [hnotes]
    exact map_keep_two s.notes snap.noteId _ hnin

/-- C10 witness: restoring a snapshot whose note id was deleted leaves the
collection untouched while the slot is still cleared. -/
theorem handleUndo_frame_witness :
    (handleUndo staleUndoState 9).1.notes = staleUndoState.notes ∧
    (handleUndo staleUndoState 9).1.undoSnapshot = none :=
  ⟨(handleUndo_frame staleUndoState 9
      { noteId := "zz".toList, title := [], paragraphs := [] } rfl).2.2.1 (by decide),
   (handleUndo_frame staleUndoState 9
      { noteId := "zz".toList, title := [], paragraphs := [] } rfl).2.2.2.1⟩

/-- C7 (amended). Delete-note contract: the note is removed from local state,
the new current note when the deleted one was current is the first remaining
note in list order, an unrelated current note is kept, and the remote delete is
scoped by both the note id and the owning user id. -/
theorem handleDeleteNote_amended (s : AppState) (id : Str) :
    (handleDeleteNote s id).1.notes = s.notes.filter (fun n => decide (n.id ≠ id)) ∧
    (s.currentNoteId = some id →
      (handleDeleteNote s id).1.currentNoteId =
        Option.map Note.id ((handleDeleteNote s id).1.notes.head?)) ∧
    (s.currentNoteId ≠ some id → (handleDeleteNote s id).1.currentNoteId = s.currentNoteId) ∧
    (∀ uid : Str, s.userId = some uid →
      (handleDeleteNote s id).2 = [RemoteCmd.deleteNote id uid]) := by
  refine ⟨rfl, ?_, ?_, ?_⟩
  · intro h
    simp only [handleDeleteNote]
    rw [if_pos h]
  · intro h
    simp only [handleDeleteNote]
    rw [if_neg h]
  · intro uid h
    simp only [handleDeleteNote, deleteNoteFromCloud, h]

/-- C7 counterexample: deleting the current note a of the three-note state makes
b current, the first survivor in list order, although survivor c was updated
later, so the new current note is not the most recently updated survivor. -/
theorem handleDeleteNote_cex :
    (handleDeleteNote threeNoteState ("a".toList)).1.currentNoteId = some ("b".toList) ∧
    (handleDeleteNote threeNoteState ("a".toList)).1.notes.map Note.updatedAt = [5, 20] := by
  decide

/-- C7 witness: the amended contract evaluated on the three-note state. -/
theorem handleDeleteNote_amended_witness :
    (handleDeleteNote threeNoteState ("a".toList)).1.currentNoteId =
      Option.map Note.id ((handleDeleteNote threeNoteState ("a".toList)).1.notes.head?) ∧
    (handleDeleteNote threeNoteState ("a".toList)).2 =
      [RemoteCmd.deleteNote ("a".toList) ("u1".toList)] :=
  ⟨(handleDeleteNote_amended threeNoteState ("a".toList)).2.1 rfl,
   (handleDeleteNote_amended threeNoteState ("a".toList)).2.2.2 ("u1".toList) rfl⟩

/-- C6 (amended). Cancellation and note switch: the idle effect clears the
replacement overlay state and the note-change effect clears the captured range
and the undo slot; neither mutates any note; but the captured range and body
snapshot refs survive the idle transition and the body snapshot ref survives a
note change. -/
theorem capture_clear_amended (s : AppState) :
    (statusIdleEffect s).notes = s.notes ∧
    (noteChangeEffect s).notes = s.notes ∧
    (s.status = RecStatus.idle →
      (statusIdleEffect s).replacingSelection = false ∧
      (statusIdleEffect s).replacingSelectionRange = none ∧
      (statusIdleEffect s).replacingSelectionBody = []) ∧
    (noteChangeEffect s).selectionRangeRef = none ∧
    (noteChangeEffect s).undoSnapshot = none ∧
    (statusIdleEffect s).selectionRangeRef = s.selectionRangeRef ∧
    (statusIdleEffect s).bodyTextAtRecord = s.bodyTextAtRecord ∧
    (noteChangeEffect s).bodyTextAtRecord = s.bodyTextAtRecord := by
  unfold statusIdleEffect noteChangeEffect
  by_cases h : s.status = RecStatus.idle <;> simp [h]

/-- C6 counterexample: in a captured state the idle effect leaves the captured
selection range and the body snapshot in place, and the note-change effect
leaves the body snapshot in place, so not all captured state is cleared. -/
theorem capture_clear_cex :
    capturedState.status = RecStatus.idle ∧
    (statusIdleEffect capturedState).selectionRangeRef = some { start := 1, stop := 3 } ∧
    (statusIdleEffect capturedState).bodyTextAtRecord = ("x".toList) ∧
    (noteChangeEffect capturedState).bodyTextAtRecord = ("x".toList) := by
  decide

/-- C6 witness: the amended clearing behaviour evaluated on the captured state. -/
theorem capture_clear_amended_witness :
    capturedState.status = RecStatus.idle ∧
    (statusIdleEffect capturedState).replacingSelection = false :=
  ⟨rfl, ((capture_clear_amended capturedState).2.2.1 rfl).1⟩

theorem mergeFrom_length (existing : List Paragraph) (fresh : Nat → Str) (now : Nat) :
    ∀ i : Nat, ∀ blocks : List Str,
    (mergeFrom existing fresh now i blocks).length = blocks.length := by
  intro i blocks
  induction blocks generalizing i with
  | nil => rfl
  | cons b rest ih => simp [mergeFrom, ih]

theorem mergeFrom_getElem (existing : List Paragraph) (fresh : Nat → Str) (now : Nat) :
    ∀ blocks : List Str, ∀ i j : Nat,
    (mergeFrom existing fresh now i blocks)[j]? =
      (blocks[j]?).map (fun b =>
        match existing[i + j]? with
        | some p => { p with text := b }
        | none => { id := fresh (i + j), text := b, timestamp := now }) := by
  intro blocks
  induction blocks with
  | nil => intro i j; simp [mergeFrom]
  | cons b rest ih =>
    intro i j
    cases j with
    | zero => simp [mergeFrom]
    | succ j' =>
      simp only [mergeFrom, List.getElem?_cons_succ]
      rw [ih (i + 1) j']
      have harith : i + 1 + j' = i + (j' + 1) := by omega
      rw [harith]

/-- C8. Paragraph identity preservation: the rebuilt paragraph list has exactly
one paragraph per block; every position that already had a paragraph keeps its
id and timestamp and only replaces the text; every position beyond the old
length gets the freshly minted id with the current time. -/
theorem updateNoteBody_identity
    (pre post : List Note) (note : Note) (s : AppState) (body : Str) (fresh : Nat → Str)
    (now : Nat)
    (hnotes : s.notes = pre ++ note :: post)
    (hcur : s.currentNoteId = some note.id)
    (hids : note.id ∉ (pre ++ post).map Note.id) :
    ((updateNoteBody s body fresh now).1.notes =
      pre ++ { note with
        paragraphs := newParagraphs note.paragraphs (deriveBlocks body) fresh now,
        updatedAt := now } :: post) ∧
    (newParagraphs note.paragraphs (deriveBlocks body) fresh now).length =
      (deriveBlocks body).length ∧
    (∀ i : Nat, ∀ p : Paragraph, ∀ b : Str, note.paragraphs[i]? = some p →
      (deriveBlocks body)[i]? = some b →
      (newParagraphs note.paragraphs (deriveBlocks body) fresh now)[i]? =
        some { p with text := b }) ∧
    (∀ i : Nat, ∀ b : Str, (deriveBlocks body)[i]? = some b → note.paragraphs.length ≤ i →
      (newParagraphs note.paragraphs (deriveBlocks body) fresh now)[i]? =
        some { id := fresh i, text := b, timestamp := now }) := by
  have hpre : note.id ∉ pre.map Note.id := fun hm => hids (by simp [hm])
  have hpost : note.id ∉ post.map Note.id := fun hm => hids (by simp [hm])
  have hfind : s.notes.find? (fun n => decide (s.currentNoteId = some n.id)) = some note := by
    rw [hnotes, hcur]
    exact find?_first pre post note hpre
  have hs0 : saveUndoSnapshot s =
      { s with
        undoSnapshot := some { noteId := note.id, title := note.title, paragraphs := note.paragraphs },
        canUndo := true } := by
    simp only [saveUndoSnapshot, hfind]
  refine ⟨?_, ?_, ?_, ?_⟩
  · simp only [updateNoteBody, hs0]
    rw [hnotes, hcur]
    exact map_if_split_one pre post note _ hpre hpost
  · by_cases hb : (deriveBlocks body).isEmpty
    · have hbe : deriveBlocks body = [] := by simpa using hb
      simp [newParagraphs, hbe]
    · simp only [newParagraphs, hb, if_neg]
      simp only [Bool.false_eq_true, if_false]
      exact mergeFrom_length note.paragraphs fresh now 0 (deriveBlocks body)
  · intro i p b hp hbl
    have hb : ¬(deriveBlocks body).isEmpty = true := by
      intro hx
      rw [show deriveBlocks body = [] from by simpa using hx] at hbl
      simp at hbl
    simp only [newParagraphs, if_neg hb]
    rw [mergeFrom_getElem note.paragraphs fresh now (deriveBlocks body) 0 i, hbl]
    simp [hp]
  · intro i b hbl hlen
    have hb : ¬(deriveBlocks body).isEmpty = true := by
      intro hx
      rw [show deriveBlocks body = [] from by simpa using hx] at hbl
      simp at hbl
    simp only [newParagraphs, if_neg hb]
    rw [mergeFrom_getElem note.paragraphs fresh now (deriveBlocks body) 0 i, hbl]
    have hnone : note.paragraphs[i]? = none := List.getElem?_eq_none hlen
    simp [hnone]

/-- C8 witness: rebuilding the one-paragraph note from a two-block body keeps
the first paragraph's id and timestamp and mints the second one fresh. -/
theorem updateNoteBody_identity_witness :
    spliceExampleState.notes = [] ++ noteHello :: [] ∧
    (updateNoteBody spliceExampleState ("x\n\ny".toList) (fun _ => ("f9".toList)) 42).1.notes =
      [] ++ { noteHello with
        paragraphs := newParagraphs noteHello.paragraphs (deriveBlocks ("x\n\ny".toList))
          (fun _ => ("f9".toList)) 42,
        updatedAt := 42 } :: [] ∧
    (newParagraphs noteHello.paragraphs (deriveBlocks ("x\n\ny".toList))
        (fun _ => ("f9".toList)) 42)[0]? =
      some { id := "p1".toList, text := "x".toList, timestamp := 0 } ∧
    (newParagraphs noteHello.paragraphs (deriveBlocks ("x\n\ny".toList))
        (fun _ => ("f9".toList)) 42)[1]? =
      some { id := "f9".toList, text := "y".toList, timestamp := 42 } :=
  ⟨rfl,
   (updateNoteBody_identity [] [] noteHello spliceExampleState ("x\n\ny".toList)
      (fun _ => ("f9".toList)) 42 rfl rfl (by simp)).1,
   (updateNoteBody_identity [] [] noteHello spliceExampleState ("x\n\ny".toList)
      (fun _ => ("f9".toList)) 42 rfl rfl (by simp)).2.2.1 0
      { id := "p1".toList, text := "hello world".toList, timestamp := 0 } ("x".toList)
      rfl (by decide),
   (updateNoteBody_identity [] [] noteHello spliceExampleState ("x\n\ny".toList)
      (fun _ => ("f9".toList)) 42 rfl rfl (by simp)).2.2.2 1 ("y".toList)
      (by decide) (by decide)⟩

/-- C9. Import of a record with no id: the remote upsert carries the freshly
minted id f0, while the record placed into the local collection still carries no
id at all, so the local copy does not carry the id under which it was persisted. -/
theorem import_missing_id_divergence :
    handleImportNotes [{ id := none, title := "a".toList, paragraphs := [] }] []
        (fun _ => ("f0".toList)) ("u1".toList) =
      ([ImportCmd.upsertRaw ("u1".toList) ("f0".toList) ("a".toList) []],
       [{ id := none, title := "a".toList, paragraphs := [] }]) ∧
    (handleImportNotes [{ id := none, title := "a".toList, paragraphs := [] }] []
        (fun _ => ("f0".toList)) ("u1".toList)).2.map RawNote.id ≠ [some ("f0".toList)] := by
  decide
